import Mathlib

/-!
# Verification of the benchmarking runner (src/src/runner.js)

A shallow embedding of the benchmark runner's core logic:

* the measurement normalizer (correction factor and floor),
* the inline two-tier warmup classifier,
* the per-case lifecycle (setup, warmup, measurement, teardown),
* the parameter-grid expander for complex benchmarks,
* the output line stream of a complex sweep,
* the task scheduler (queue, drain loop, counters, exit status).

JS numbers appearing in timing arithmetic are modelled as exact rationals;
repetition counts are naturals.  Exceptions thrown by user callbacks are
modelled with `Except`/error flags.  Asynchronous interleaving of the drain
loop with registrations and with the discovery-complete signal is modelled
as a small-step transition relation.
-/

namespace Benchmarking

/-! ## Measurement normalizer

From `runner.js` lines 122-124 (simple) and 213-215 (complex):

    const correctionFactor = timePerCase / elapsed
    const result = Math.floor(reps * correctionFactor)
-/

/-- Result of the external adaptive repetition primitive `amrap`:
actual elapsed time and completed repetition count. -/
structure AmrapResult where
  elapsed : ℚ
  reps : ℕ
deriving DecidableEq

/-- The reported throughput: `Math.floor(reps * (timePerCase / elapsed))`,
translated with exact rational arithmetic. -/
def throughputOf (timePerCase elapsed : ℚ) (reps : ℕ) : ℤ :=
  ⌊(reps : ℚ) * (timePerCase / elapsed)⌋

/-! ## Per-case lifecycle (simple benchmark loop body, lines 92-125;
the complex loop body at lines 181-215 is identical except for labels).

    const preData = pre ? pre() : null
    global.gc(true)
    const warmupTime = time(() => callback(preData))
    if (warmupTime > timePerCase) { log(0); post && post(preData); continue }
    if (warmupTime * 2 > timePerCase) { log(1); post && post(preData); continue }
    const { elapsed, reps } = await amrap(..., timePerCase)
    post && post(preData)
    log(Math.floor(reps * (timePerCase / elapsed)))

The external `time` helper is passed the case callback; if the callback
throws, the exception propagates (there is no try/finally inside the loop),
so we model the warmup probe as `Except String ℚ`.  Likewise the `amrap`
call is modelled as `Except String AmrapResult`. -/

/-- Outcome of running one case: the printed result row (if any), the list
of arguments the teardown `post` was invoked with, whether `amrap` was
invoked, and whether an exception escaped the loop body. -/
structure CaseResult (α : Type) where
  row : Option ℤ
  postArgs : List α
  measured : Bool
  err : Bool
deriving DecidableEq

/-- One iteration of the per-case loop, translated from `runner.js`
lines 92-125.  `hasPost` says whether a teardown was declared; `preData`
is the state produced by the setup `pre`. -/
def runOneCase (α : Type) (hasPost : Bool) (preData : α) (timePerCase : ℚ)
    (warmup : Except String ℚ) (measure : Except String AmrapResult) :
    CaseResult α :=
  match warmup with
  | .error _ => ⟨none, [], false, true⟩
  | .ok warmupTime =>
    if warmupTime > timePerCase then
      ⟨some 0, if hasPost then [preData] else [], false, false⟩
    else if warmupTime * 2 > timePerCase then
      ⟨some 1, if hasPost then [preData] else [], false, false⟩
    else
      match measure with
      | .error _ => ⟨none, [], true, true⟩
      | .ok m =>
        ⟨some (throughputOf timePerCase m.elapsed m.reps),
          if hasPost then [preData] else [], true, false⟩

/-! ## Parameter grid expander (complex benchmarks, lines 139-175)

    const parameters = Object.entries(_p)
    ...
    parameterOptions[i] = options ?? map(values, makeOption)
    ...
    for (const options of product(parameterOptions)) {
      const names = map(options, ({ name }) => name)
      const info = zipObject(parameterKeys, names)
      const filters = map(options, ({ filter }) => filter).filter(Boolean)
      if (!every(filters, (filter) => filter(info))) { continue }
      const values = map(options, ({ value }) => value)
      const data = zipObject(parameterKeys, values)
      cases.push({ info, data })
    }

`K` is the type of dimension keys, `L` of option labels (names), `V` of
option values. -/

/-- One option along a dimension of a complex benchmark's parameter grid:
a display label, a value, and an optional filter predicate over the full
label map of a candidate combination. -/
structure ParamOption (K L V : Type) where
  name : L
  value : V
  filter : Option (List (K × L) → Bool)

/-- From `runner.js` line 22: `makeOption = (x) => ({ name: x, value: x })`,
used to auto-wrap a plain value list into options. -/
def makeOption (K : Type) {V : Type} (x : V) : ParamOption K V V := ⟨x, x, none⟩

/-- Modelled from the spec: the cartesian-product helper `product` from
the external package `@kmamal/util/array/combinatorics/product` is not part
of this repository's sources.  Per the spec it enumerates every combination
in declared dimension order with the last dimension varying fastest
(innermost loop). -/
def product {α : Type} : List (List α) → List (List α)
  | [] => [[]]
  | l :: ls => l.flatMap (fun x => (product ls).map (fun c => x :: c))

/-- Modelled from the spec: `zip` from `@kmamal/util/object/zip` builds an
object from a key list and a value list; modelled as an association list
in key order. -/
def zipObject {K α : Type} (keys : List K) (vals : List α) : List (K × α) :=
  keys.zip vals

/-- The label map `info = zipObject(parameterKeys, names)` of a combination. -/
def comboInfo {K L V : Type} (keys : List K) (combo : List (ParamOption K L V)) :
    List (K × L) :=
  zipObject keys (combo.map (fun o => o.name))

/-- The admission test of lines 160-163: collect the chosen options'
filters (dropping absent ones, `.filter(Boolean)`) and require every one
to accept the combination's label map. -/
def admitCombo {K L V : Type} (keys : List K) (combo : List (ParamOption K L V)) :
    Bool :=
  let info := comboInfo keys combo
  let filters := (combo.map (fun o => o.filter)).filterMap id
  filters.all (fun f => f info)

/-- One resolved combination: a label map and a data map. -/
structure CaseInstance (K L V : Type) where
  info : List (K × L)
  data : List (K × V)
deriving DecidableEq

/-- The case record pushed at line 167. -/
def mkCase {K L V : Type} (keys : List K) (combo : List (ParamOption K L V)) :
    CaseInstance K L V :=
  ⟨comboInfo keys combo, zipObject keys (combo.map (fun o => o.value))⟩

/-- The case-building loop of lines 154-168: walk the cartesian product in
order, skip combinations rejected by a filter, push the rest. -/
def buildCases {K L V : Type} (keys : List K) (opts : List (List (ParamOption K L V))) :
    List (CaseInstance K L V) :=
  (product opts).foldl
    (fun cs combo => if admitCombo keys combo then cs ++ [mkCase keys combo] else cs)
    []

/-! ## Output of a complex sweep (lines 128-221) -/

/-- One console line produced inside `runComplexBenchmark`.  The
`header` constructor exists so that the presence or absence of a header
row of dimension display names is expressible; the translated code below
never emits it, because the source contains no statement printing the
collected display names. -/
inductive CLine (K L : Type) where
  | estimate (seconds : ℤ) (numCases : ℕ)
  | header (names : List L)
  | row (info : List (K × L)) (result : ℤ)
  | blank
deriving DecidableEq

/-- JS property read `data[k]` on an association list, with an optional
key (`parameterKeys.at(-1)` is `undefined` when there are no dimensions,
and `data[undefined]` is `undefined`). -/
def jsIndex {K V : Type} [DecidableEq K] (data : List (K × V)) (k : Option K) :
    Option V :=
  k.bind (fun key => (data.find? (fun p => decide (p.1 = key))).map (fun p => p.2))

/-- The per-case loop of lines 181-221, producing the console lines and an
error flag.  A case whose warmup probe or measurement call throws aborts
the loop (there is no try/finally inside it); a skipped or marginal case
prints its sentinel row and `continue`s; a measured case prints its row
and then, when more than one dimension is declared and the case's value
for the last dimension equals the last option's value, a blank separator
line.  Setup and teardown are modelled as non-throwing here; the teardown
path itself is settled through `runOneCase`. -/
def runComplexCases {K L V : Type} [DecidableEq K] [DecidableEq V]
    (timePerCase : ℚ) (numParameters : ℕ) (lastKey : Option K) (lastValue : V)
    (warmup : List (K × V) → Except String ℚ)
    (measure : List (K × V) → Except String AmrapResult) :
    List (CaseInstance K L V) → List (CLine K L) × Bool
  | [] => ([], false)
  | c :: rest =>
    match warmup c.data with
    | .error _ => ([], true)
    | .ok warmupTime =>
      if warmupTime > timePerCase then
        let (out, e) := runComplexCases timePerCase numParameters lastKey lastValue
          warmup measure rest
        (CLine.row c.info 0 :: out, e)
      else if warmupTime * 2 > timePerCase then
        let (out, e) := runComplexCases timePerCase numParameters lastKey lastValue
          warmup measure rest
        (CLine.row c.info 1 :: out, e)
      else
        match measure c.data with
        | .error _ => ([], true)
        | .ok m =>
          let (out, e) := runComplexCases timePerCase numParameters lastKey lastValue
            warmup measure rest
          let sep : List (CLine K L) :=
            if numParameters > 1 ∧ jsIndex c.data lastKey = some lastValue
            then [CLine.blank] else []
          (CLine.row c.info (throughputOf timePerCase m.elapsed m.reps) :: (sep ++ out), e)

/-- Result of one complex benchmark job: the console lines it printed and
whether an exception escaped to the job-level failure boundary. -/
structure ComplexRun (K L : Type) where
  output : List (CLine K L)
  err : Bool

/-- Translation of `runComplexBenchmark` (lines 128-221), for a parameter list whose
option lists are already resolved (`options ?? map(values, makeOption)`).
The case list and the estimate line are computed first (lines 154-175);
then `parameterOptions.at(-1).at(-1).value` is read (line 179), which
throws a TypeError when there are no dimensions or the last dimension has
no options; then the per-case loop runs. -/
def runComplexBenchmark {K L V : Type} [DecidableEq K] [DecidableEq V]
    (timePerCase : ℚ) (params : List (K × List (ParamOption K L V)))
    (warmup : List (K × V) → Except String ℚ)
    (measure : List (K × V) → Except String AmrapResult) :
    ComplexRun K L :=
  let numParameters := params.length
  let parameterKeys := params.map (fun p => p.1)
  let parameterOptions := params.map (fun p => p.2)
  let cases := buildCases parameterKeys parameterOptions
  let est : List (CLine K L) :=
    if timePerCase * cases.length > 10000
    then [CLine.estimate ⌊timePerCase * cases.length / 1000⌋ cases.length]
    else []
  match parameterOptions.getLast? with
  | none => ⟨est, true⟩
  | some lastOpts =>
    match lastOpts.getLast? with
    | none => ⟨est, true⟩
    | some lastOpt =>
      let (out, e) := runComplexCases timePerCase numParameters
        parameterKeys.getLast? lastOpt.value warmup measure cases
      ⟨est ++ out, e⟩

/-- Translation of the case loop of `runSimpleBenchmark` (lines 92-125) at the job level: each
case carries its setup state and the behavior of its warmup probe and
measurement call.  A throwing case aborts the loop with the error flag
set; otherwise the printed result rows accumulate in order. -/
def runSimpleBenchmark (α : Type) (hasPost : Bool) (timePerCase : ℚ) :
    List (α × Except String ℚ × Except String AmrapResult) → List ℤ × Bool
  | [] => ([], false)
  | (pd, w, m) :: rest =>
    let r := runOneCase α hasPost pd timePerCase w m
    if r.err then ([], true)
    else
      let (rows, e) := runSimpleBenchmark α hasPost timePerCase rest
      (r.row.toList ++ rows, e)

/-! ## Task scheduler (class `BenchmarkRunner`, lines 35-298)

The queue `this.stack` holds three kinds of entries: a string (pushed by
`appendFile` before loading a file, opening a console group), `null`
(pushed after loading, closing the group), and job records
`{ name, description, complex }` pushed by the registration calls.  The
drain loop `runBenchmarks` repeatedly shifts the head entry, runs jobs
inside a try/catch, counts failures, and on an empty queue with
`filesDone` set prints the totals and exits. -/

/-- A queued benchmark job, abstracted to its name and whether running its
description throws (reaches the catch at line 248). -/
structure Job where
  name : String
  fails : Bool
deriving DecidableEq

/-- A queue entry: a group-open marker (a string), a group-close marker
(`null`), or a job. -/
inductive Entry where
  | group (label : String)
  | groupEnd
  | job (j : Job)
deriving DecidableEq

/-- One console line produced by the drain loop or the final report. -/
inductive OutLine where
  | groupOpen (label : String)
  | groupClose
  | blankLine
  | errorLog (jobName : String)
  | filesLine (n : ℕ)
  | benchmarksLine (n : ℕ)
  | failedLine (n : ℕ)
deriving DecidableEq

/-- The mutable state the drain loop threads: the two counters, the names
of jobs whose execution has begun (in order), and the console log. -/
structure DrainState where
  countBenchmarks : ℕ
  countFailed : ℕ
  executed : List String
  log : List OutLine
deriving DecidableEq

/-- Processing of one shifted entry by the loop body (lines 226-261):
a string opens a group; `null` closes the group and prints a blank line;
a job opens a group named after it, begins the run procedure (whose first
statement increments `countBenchmarks`, line 65 / 129), on exception logs
the error and increments `countFailed`, and closes the group. -/
def processEntry (s : DrainState) : Entry → DrainState
  | .group l => { s with log := s.log ++ [.groupOpen l] }
  | .groupEnd => { s with log := s.log ++ [.groupClose, .blankLine] }
  | .job j =>
    let s1 : DrainState :=
      { s with
        countBenchmarks := s.countBenchmarks + 1
        executed := s.executed ++ [j.name]
        log := s.log ++ [.groupOpen j.name] }
    let s2 : DrainState :=
      if j.fails then
        { s1 with
          countFailed := s1.countFailed + 1
          log := s1.log ++ [.errorLog j.name] }
      else s1
    { s2 with log := s2.log ++ [.groupClose] }

/-- The while loop of lines 225-262 over a queue snapshot. -/
def drainQueue (s : DrainState) (q : List Entry) : DrainState :=
  q.foldl processEntry s

/-- The exit status from `process.exit(this.countFailed > 0 ? 1 : 0)` (line 269). -/
def exitCode (failed : ℕ) : ℕ :=
  if failed > 0 then 1 else 0

/-- Translation of `runBenchmarks` (lines 224-273) on a queue snapshot: drain, then, if
discovery has completed, print the three totals and exit with the computed
status; otherwise go idle. -/
def runBenchmarksModel (countFiles : ℕ) (filesDone : Bool) (s : DrainState)
    (q : List Entry) : DrainState × Option ℕ :=
  let r := drainQueue s q
  if filesDone then
    ({ r with
        log := r.log ++
          [.filesLine countFiles, .benchmarksLine r.countBenchmarks,
            .failedLine r.countFailed] },
      some (exitCode r.countFailed))
  else (r, none)

/-! ### Counter states at every mutation point (for the invariant
`countFailed ≤ countBenchmarks`).  A pair `(b, f)` is the value of
`(countBenchmarks, countFailed)`.  A job contributes two observation
points when it fails (after line 65 / 129, and after line 258) and one
otherwise. -/

/-- The counter values after each mutation performed while one entry is
processed. -/
def entryCounterStates (s : ℕ × ℕ) : Entry → List (ℕ × ℕ)
  | .group _ => []
  | .groupEnd => []
  | .job j =>
    if j.fails then [(s.1 + 1, s.2), (s.1 + 1, s.2 + 1)] else [(s.1 + 1, s.2)]

/-- The counter values after one entry has been fully processed. -/
def stepCounters (s : ℕ × ℕ) : Entry → ℕ × ℕ
  | .group _ => s
  | .groupEnd => s
  | .job j => (s.1 + 1, s.2 + (if j.fails then 1 else 0))

/-- All intermediate counter values observed while the drain loop
processes a queue. -/
def counterTrace (s : ℕ × ℕ) : List Entry → List (ℕ × ℕ)
  | [] => []
  | e :: rest => entryCounterStates s e ++ counterTrace (stepCounters s e) rest

/-! ### Interleaving of registrations with the drain (for FIFO order).

`appendSimpleBenchmark` / `appendComplexBenchmark` (lines 46-62) push to
the tail of `this.stack`; the drain loop shifts from its head.  The ghost
fields `registered` and `executed` record, in order, every entry ever
pushed and every entry ever shifted.  The transition relation allows
pushes and shifts in any interleaving, covering every schedule the
cooperative runtime can produce. -/

/-- Queue state with ghost history fields. -/
structure SchedState where
  stack : List Entry
  executed : List Entry
  registered : List Entry
deriving DecidableEq

/-- States reachable from the initial empty scheduler by any interleaving
of registrations (push to tail) and drain steps (shift from head). -/
inductive SchedReach : SchedState → Prop where
  | init : SchedReach ⟨[], [], []⟩
  | register {s : SchedState} (e : Entry) :
      SchedReach s →
      SchedReach ⟨s.stack ++ [e], s.executed, s.registered ++ [e]⟩
  | pop {s : SchedState} {e : Entry} {rest : List Entry} :
      SchedReach s → s.stack = e :: rest →
      SchedReach ⟨rest, s.executed ++ [e], s.registered⟩

/-! ### Concurrent drain loops (the `running` flag and `finish`).

A registration arms a drain loop only when `this.running` is false
(lines 49-52 / 58-61); but `finish` (lines 294-297) sets `filesDone` and
calls `this.runBenchmarks()` unconditionally, without consulting
`running`.  Each active `runBenchmarks` invocation is either at the top of
its while loop (`popping`) or suspended inside a job's execution at an
await point (`inJob`).  Because `stack.shift()` is synchronous, a pop is
atomic, but a second active loop can pop and begin the next job while the
first is still suspended inside its own job. -/

/-- The phase of one active `runBenchmarks` invocation. -/
inductive LoopPhase where
  | popping
  | inJob (j : Job)
deriving DecidableEq

/-- Whether a loop is currently executing a job. -/
def LoopPhase.isInJob : LoopPhase → Bool
  | .popping => false
  | .inJob _ => true

/-- Scheduler state with the set of active drain-loop invocations. -/
structure SchedulerC where
  stack : List Entry
  loops : List LoopPhase
  running : Bool
  filesDone : Bool
deriving DecidableEq

/-- States reachable from process start.  `registerIdle` / `registerBusy`
are the registration calls (lines 46-62): push the job, and arm a new
drain loop only when `running` was false.  `pushMarker` is `appendFile`'s
push of a group marker (lines 278, 291), which never arms a loop.
`finish` (lines 294-297) sets `filesDone` and starts a drain loop
unconditionally.  `popMarker` / `popJob` are one iteration of an active
loop's `stack.shift()`; a popped job is executed by that loop, which
suspends at the job's await points (`inJob`), letting other active loops
proceed.  `jobDone` returns a loop to the top of its while loop, and
`loopExit` is a loop observing an empty stack and returning (line 272). -/
inductive CReach : SchedulerC → Prop where
  | init : CReach ⟨[], [], false, false⟩
  | registerIdle {s : SchedulerC} (j : Job) :
      CReach s → s.running = false →
      CReach ⟨s.stack ++ [.job j], s.loops ++ [.popping], true, s.filesDone⟩
  | registerBusy {s : SchedulerC} (j : Job) :
      CReach s → s.running = true →
      CReach ⟨s.stack ++ [.job j], s.loops, true, s.filesDone⟩
  | pushMarker {s : SchedulerC} (e : Entry) :
      CReach s → (∀ j : Job, e ≠ .job j) →
      CReach ⟨s.stack ++ [e], s.loops, s.running, s.filesDone⟩
  | finish {s : SchedulerC} :
      CReach s →
      CReach ⟨s.stack, s.loops ++ [.popping], s.running, true⟩
  | popMarker {s : SchedulerC} {e : Entry} {rest : List Entry} (i : ℕ) :
      CReach s → s.loops.get? i = some .popping →
      s.stack = e :: rest → (∀ j : Job, e ≠ .job j) →
      CReach ⟨rest, s.loops, s.running, s.filesDone⟩
  | popJob {s : SchedulerC} {j : Job} {rest : List Entry} (i : ℕ) :
      CReach s → s.loops.get? i = some .popping →
      s.stack = .job j :: rest →
      CReach ⟨rest, s.loops.set i (.inJob j), s.running, s.filesDone⟩
  | jobDone {s : SchedulerC} {j : Job} (i : ℕ) :
      CReach s → s.loops.get? i = some (.inJob j) →
      CReach ⟨s.stack, s.loops.set i .popping, s.running, s.filesDone⟩
  | loopExit {s : SchedulerC} (i : ℕ) :
      CReach s → s.loops.get? i = some .popping → s.stack = [] →
      CReach ⟨[], s.loops.eraseIdx i, false, s.filesDone⟩

/-- The state reached when `finish` fires while the first drain loop is
suspended inside the first job's measurement and a second job is queued:
both loops are inside a job simultaneously. -/
def interleavedState : SchedulerC :=
  ⟨[], [.inJob ⟨"a", false⟩, .inJob ⟨"b", false⟩], true, true⟩

/-! ### Counting helpers over queues -/

/-- The names of the jobs in a queue, in order. -/
def jobNames (q : List Entry) : List String :=
  q.filterMap (fun e => match e with | .job j => some j.name | _ => none)

/-- The number of job entries in a queue. -/
def numJobs (q : List Entry) : ℕ :=
  (q.filter (fun e => match e with | .job _ => true | _ => false)).length

/-- The number of failing job entries in a queue. -/
def numFailingJobs (q : List Entry) : ℕ :=
  (q.filter (fun e => match e with | .job j => j.fails | _ => false)).length

/-- The console lines one processed entry appends (the log part of
`processEntry`). -/
def entryLog (e : Entry) : List OutLine :=
  match e with
  | .group l => [.groupOpen l]
  | .groupEnd => [.groupClose, .blankLine]
  | .job j =>
    [.groupOpen j.name] ++ (if j.fails then [.errorLog j.name] else []) ++
      [.groupClose]

/-! ### Header detection and the declarative sweep description (for the
amended separator law) -/

/-- Whether a complex-sweep console line is a header row of dimension
display names. -/
def isHeaderLine {K L : Type} : CLine K L → Bool
  | .header _ => true
  | _ => false

/-- Per-case console lines as the amended specification describes them:
a skipped case prints only its sentinel 0 row, a marginal case only its
sentinel 1 row, and a measured case prints its result row followed by a
blank separator exactly when more than one dimension is declared and the
case's value for the last dimension equals that dimension's last option's
value.  This definition follows the (amended) spec wording and is compared
against the translated loop `runComplexCases`. -/
def sweepLinesSpec {K L V : Type} [DecidableEq K] [DecidableEq V]
    (timePerCase : ℚ) (numParameters : ℕ) (lastKey : Option K) (lastValue : V)
    (warmupTime : List (K × V) → ℚ) (measureRes : List (K × V) → AmrapResult)
    (c : CaseInstance K L V) : List (CLine K L) :=
  let w := warmupTime c.data
  if w > timePerCase then [.row c.info 0]
  else if w * 2 > timePerCase then [.row c.info 1]
  else
    .row c.info (throughputOf timePerCase (measureRes c.data).elapsed
        (measureRes c.data).reps) ::
      (if numParameters > 1 ∧ jsIndex c.data lastKey = some lastValue
        then [.blank] else [])

/-! ### Concrete complex benchmark used to exhibit the output stream:
two dimensions of two options each, every combination measured except the
very last one, which is classified marginal. -/

/-- A 2-by-2 parameter grid with no filters. -/
def gridTwoByTwo : List (String × List (ParamOption String String ℕ)) :=
  [("n", [⟨"n1", 1, none⟩, ⟨"n2", 2, none⟩]),
   ("m", [⟨"m1", 10, none⟩, ⟨"m2", 20, none⟩])]

/-- A warmup duration that makes the last combination marginal (600 * 2 >
1000) and every other combination fast (400 * 2 ≤ 1000). -/
def gridWarmupTime (d : List (String × ℕ)) : ℚ :=
  if d = [("n", 2), ("m", 20)] then 600 else 400

/-- The warmup probe for `gridTwoByTwo`: never throws. -/
def gridWarmup (d : List (String × ℕ)) : Except String ℚ :=
  .ok (gridWarmupTime d)

/-- A measurement result of 5 repetitions in exactly the budget. -/
def gridMeasureRes (_ : List (String × ℕ)) : AmrapResult :=
  ⟨1000, 5⟩

/-- The measurement call for `gridTwoByTwo`: never throws. -/
def gridMeasure (d : List (String × ℕ)) : Except String AmrapResult :=
  .ok (gridMeasureRes d)

end Benchmarking

namespace Benchmarking

/-! ## Sanity examples (concrete evaluations of the embedding) -/

example : throughputOf 1000 1000 42 = 42 := by norm_num [throughputOf]

example : throughputOf 1000 2000 10 = 5 := by norm_num [throughputOf]

example : runOneCase ℕ true 7 1000 (.ok 1500) (.ok ⟨1000, 3⟩) =
    ⟨some 0, [7], false, false⟩ := by norm_num [runOneCase]

example : runOneCase ℕ true 7 1000 (.ok 600) (.ok ⟨1000, 3⟩) =
    ⟨some 1, [7], false, false⟩ := by norm_num [runOneCase]

example : runOneCase ℕ true 7 1000 (.ok 400) (.ok ⟨1250, 10⟩) =
    ⟨some 8, [7], true, false⟩ := by norm_num [runOneCase, throughputOf]

example : runOneCase ℕ true 7 1000 (.error "boom") (.ok ⟨1000, 3⟩) =
    ⟨none, [], false, true⟩ := rfl

/-! ## C1: measurement normalization -/

/-- C1: for target budget `T`, actual elapsed `E` and repetition count `R`
returned by the adaptive repetition primitive, the reported throughput
equals `⌊R * T / E⌋`; in particular, whenever `E = T` the reported
throughput equals `R`. -/
theorem throughput_normalization (T E : ℚ) (R : ℕ) (hE : 0 < E) :
    throughputOf T E R = ⌊(R : ℚ) * T / E⌋ ∧
      (E = T → throughputOf T E R = R) := by
  constructor
  · unfold throughputOf
    rw [mul_div_assoc]
  · intro h
    subst h
    unfold throughputOf
    rw [div_self (ne_of_gt hE), mul_one]
    exact Int.floor_natCast R

theorem throughput_normalization_witness :
    throughputOf 1000 1000 42 = ⌊(42 : ℚ) * 1000 / 1000⌋ ∧
      throughputOf 1000 1000 42 = 42 := by
  have h := throughput_normalization 1000 1000 42 (by norm_num)
  exact ⟨h.1, h.2 rfl⟩

/-! ## C2: inline two-tier warmup classifier (Strategy A) -/

/-- C2: if the single timed warmup invocation exceeds the budget, the case
is reported with throughput 0 and the measurement primitive is never
invoked; else if it exceeds half the budget, it is reported with
throughput 1 and the measurement primitive is never invoked; otherwise
full measurement proceeds and the measured result is reported. -/
theorem classifier_two_tier (α : Type) (hasPost : Bool) (pd : α) (T w : ℚ)
    (measure : Except String AmrapResult) :
    (w > T → runOneCase α hasPost pd T (.ok w) measure =
      ⟨some 0, if hasPost then [pd] else [], false, false⟩) ∧
    (¬ w > T → w > T / 2 → runOneCase α hasPost pd T (.ok w) measure =
      ⟨some 1, if hasPost then [pd] else [], false, false⟩) ∧
    (¬ w > T → ¬ w > T / 2 →
      (runOneCase α hasPost pd T (.ok w) measure).measured = true ∧
      ∀ m, measure = .ok m → runOneCase α hasPost pd T (.ok w) measure =
        ⟨some (throughputOf T m.elapsed m.reps),
          if hasPost then [pd] else [], true, false⟩) := by
  refine ⟨?_, ?_, ?_⟩
  · intro h1
    simp [runOneCase, if_pos h1]
  · intro h1 h2
    have h2' : w * 2 > T := by linarith
    simp [runOneCase, if_neg h1, if_pos h2']
  · intro h1 h2
    have h2' : ¬ w * 2 > T := by
      intro hc
      exact h2 (by linarith)
    refine ⟨?_, ?_⟩
    · cases measure with
      | error e => simp [runOneCase, if_neg h1, if_neg h2']
      | ok m => simp [runOneCase, if_neg h1, if_neg h2']
    · intro m hm
      subst hm
      simp [runOneCase, if_neg h1, if_neg h2']

theorem classifier_two_tier_witness :
    runOneCase ℕ true 7 1000 (.ok 600) (.ok ⟨1000, 3⟩) =
      ⟨some 1, [7], false, false⟩ := by
  have h := (classifier_two_tier ℕ true 7 1000 600 (.ok ⟨1000, 3⟩)).2.1
    (by norm_num) (by norm_num)
  simpa using h

/-! ## C7: teardown invocation -/

/-- C7 counterexample: the claim says a declared teardown is invoked
exactly once regardless of outcome, including when the case's callback
throws during warmup.  In the code the warmup probe at line 99 is not
wrapped in any try/finally, so a throwing callback propagates to the
job-level boundary without `post` ever being invoked: here `hasPost` is
`true` and the setup state is `7`, yet the teardown argument list is
empty rather than `[7]`. -/
theorem teardown_counterexample :
    (runOneCase ℕ true 7 1000 (.error "boom") (.ok ⟨1000, 3⟩)).postArgs ≠ [7] ∧
    (runOneCase ℕ true 7 1000 (.error "boom") (.ok ⟨1000, 3⟩)).postArgs = [] := by
  exact ⟨by decide, rfl⟩

/-- C7 amended: for every case with a declared teardown that completes
without throwing — skipped, marginal, or fully measured — the teardown is
invoked exactly once with the state produced by that case's setup; if the
callback throws during warmup or measurement, the job aborts without the
teardown being invoked at all (its invocation list is empty). -/
theorem teardown_exactly_once (α : Type) (hasPost : Bool) (pd : α) (T : ℚ)
    (warmup : Except String ℚ) (measure : Except String AmrapResult) :
    ((runOneCase α hasPost pd T warmup measure).err = false →
      (runOneCase α hasPost pd T warmup measure).postArgs =
        if hasPost then [pd] else []) ∧
    ((runOneCase α hasPost pd T warmup measure).err = true →
      (runOneCase α hasPost pd T warmup measure).postArgs = []) := by
  cases warmup with
  | error e => simp [runOneCase]
  | ok w =>
    by_cases h1 : w > T
    · simp [runOneCase, if_pos h1]
    · by_cases h2 : w * 2 > T
      · simp [runOneCase, if_neg h1, if_pos h2]
      · cases measure with
        | error e => simp [runOneCase, if_neg h1, if_neg h2]
        | ok m => simp [runOneCase, if_neg h1, if_neg h2]

theorem teardown_exactly_once_witness :
    (runOneCase ℕ true 7 1000 (.ok 1500) (.ok ⟨1000, 3⟩)).postArgs = [7] := by
  have h := (teardown_exactly_once ℕ true 7 1000 (.ok 1500) (.ok ⟨1000, 3⟩)).1
    (by norm_num [runOneCase])
  simpa using h

/-! ## C3: parameter grid expansion -/

theorem sum_map_const {α : Type} (l : List α) (c : ℕ) :
    (l.map fun _ => c).sum = l.length * c := by
  induction l with
  | nil => simp
  | cons a l ih => simp [ih, Nat.succ_mul, Nat.add_comm]

theorem product_length {α : Type} (ls : List (List α)) :
    (product ls).length = (ls.map List.length).prod := by
  induction ls with
  | nil => rfl
  | cons l ls ih =>
    have h1 : (List.length ∘ fun x : α => (product ls).map (fun c => x :: c)) =
        fun _ : α => (product ls).length := by
      funext x
      simp
    simp only [product, List.length_flatMap, h1]
    rw [sum_map_const, ih, List.map_cons, List.prod_cons]

theorem mem_product {α : Type} (ls : List (List α)) (c : List α) :
    c ∈ product ls ↔ List.Forall₂ (fun x l => x ∈ l) c ls := by
  induction ls generalizing c with
  | nil =>
    simp [product, List.forall₂_nil_right_iff]
  | cons l ls ih =>
    simp only [product, List.mem_flatMap, List.mem_map]
    constructor
    · rintro ⟨x, hx, c', hc', rfl⟩
      exact List.Forall₂.cons hx ((ih c').1 hc')
    · intro h
      cases h with
      | cons hx hc => exact ⟨_, hx, _, (ih _).2 hc, rfl⟩

theorem forall₂_mem_left {α β : Type} {r : α → β → Prop} {l₁ : List α}
    {l₂ : List β} (h : List.Forall₂ r l₁ l₂) {a : α} (ha : a ∈ l₁) :
    ∃ b ∈ l₂, r a b := by
  induction h with
  | nil => cases ha
  | cons hr hrest ih =>
    rcases List.mem_cons.1 ha with rfl | h'
    · exact ⟨_, List.mem_cons_self _ _, hr⟩
    · obtain ⟨b, hb, hrb⟩ := ih h'
      exact ⟨b, List.mem_cons_of_mem _ hb, hrb⟩

theorem admitCombo_eq_true_iff {K L V : Type} (keys : List K)
    (combo : List (ParamOption K L V)) :
    admitCombo keys combo = true ↔
      ∀ o ∈ combo, ∀ f, o.filter = some f → f (comboInfo keys combo) = true := by
  unfold admitCombo
  simp only [List.all_eq_true, List.mem_filterMap, List.mem_map, id_eq]
  constructor
  · rintro h o ho f hf
    exact h f ⟨o.filter, ⟨o, ho, rfl⟩, hf⟩
  · rintro h f ⟨x, ⟨o, ho, rfl⟩, hf⟩
    exact h o ho f hf

theorem admitCombo_eq_false_iff {K L V : Type} (keys : List K)
    (combo : List (ParamOption K L V)) :
    admitCombo keys combo = false ↔
      ∃ o ∈ combo, ∃ f, o.filter = some f ∧ f (comboInfo keys combo) = false := by
  rw [← Bool.not_eq_true, admitCombo_eq_true_iff]
  push_neg
  simp only [Bool.not_eq_true]

theorem foldl_if_append {α β : Type} (p : α → Bool) (f : α → β) (l : List α)
    (acc : List β) :
    l.foldl (fun cs c => if p c then cs ++ [f c] else cs) acc =
      acc ++ (l.filter p).map f := by
  induction l generalizing acc with
  | nil => simp
  | cons a l ih =>
    by_cases h : p a
    · simp [List.foldl_cons, h, ih, List.filter_cons, List.append_assoc]
    · simp [List.foldl_cons, h, ih, List.filter_cons]

/-- C3: the expanded case list of a complex benchmark is exactly the
cartesian product of the declared dimensions' option lists (in declared
dimension order, last dimension varying fastest — the enumeration order of
`product`), minus every combination for which some chosen option's filter
applied to the combination's full label map returns false; with no filters
the executed case count equals the full product size. -/
theorem grid_expansion {K L V : Type} (keys : List K)
    (opts : List (List (ParamOption K L V))) :
    buildCases keys opts =
      ((product opts).filter (admitCombo keys)).map (mkCase keys) ∧
    (∀ combo : List (ParamOption K L V), admitCombo keys combo = false ↔
      ∃ o ∈ combo, ∃ f, o.filter = some f ∧ f (comboInfo keys combo) = false) ∧
    ((∀ os ∈ opts, ∀ o ∈ os, o.filter = none) →
      (buildCases keys opts).length = (opts.map List.length).prod) := by
  have hbc : buildCases keys opts =
      ((product opts).filter (admitCombo keys)).map (mkCase keys) := by
    unfold buildCases
    rw [foldl_if_append]
    simp
  refine ⟨hbc, fun combo => admitCombo_eq_false_iff keys combo, ?_⟩
  intro hnf
  have hall : ∀ combo ∈ product opts, admitCombo keys combo = true := by
    intro combo hc
    rw [admitCombo_eq_true_iff]
    intro o ho f hf
    obtain ⟨os, hos, ho'⟩ :=
      forall₂_mem_left ((mem_product opts combo).1 hc) ho
    rw [hnf os hos o ho'] at hf
    cases hf
  rw [hbc, List.length_map, List.filter_eq_self.mpr hall, product_length]

theorem grid_expansion_witness :
    (buildCases ["n", "m"]
      [[⟨1, 1, none⟩, ⟨2, 2, none⟩], [⟨10, 10, none⟩, ⟨20, 20, none⟩]] :
      List (CaseInstance String ℕ ℕ)).length = 4 := by
  have h := (grid_expansion ["n", "m"]
    [[⟨1, 1, none⟩, ⟨2, 2, none⟩], [⟨10, 10, none⟩, ⟨20, 20, none⟩]]).2.2 ?_
  · simpa using h
  · intro os hos o ho
    fin_cases hos <;> fin_cases ho <;> rfl

/-! ## C4: FIFO execution of registered jobs -/

/-- C4: for every sequence of benchmark registrations interleaved with
file loads and drain steps, the entries executed so far followed by the
entries still queued are exactly the entries registered so far, in
registration order; hence once the queue drains, the execution sequence
equals the registration sequence — every registered job has executed
exactly once (same occurrence count), in FIFO order. -/
theorem fifo_execution (s : SchedState) (h : SchedReach s) :
    s.executed ++ s.stack = s.registered ∧
    (s.stack = [] → s.executed = s.registered) ∧
    (s.stack = [] → ∀ e : Entry, s.executed.count e = s.registered.count e) := by
  have hinv : s.executed ++ s.stack = s.registered := by
    induction h with
    | init => rfl
    | register e h ih =>
      simp only
      rw [← List.append_assoc, ih]
    | pop h hs ih =>
      simp only
      rw [List.append_assoc, List.singleton_append, ← hs, ih]
  refine ⟨hinv, ?_, ?_⟩
  · intro hempty
    simpa [hempty] using hinv
  · intro hempty e
    have : s.executed = s.registered := by simpa [hempty] using hinv
    rw [this]

theorem fifo_execution_witness :
    (⟨[], [.job ⟨"a", false⟩, .job ⟨"b", false⟩],
        [.job ⟨"a", false⟩, .job ⟨"b", false⟩]⟩ : SchedState).executed =
      (⟨[], [.job ⟨"a", false⟩, .job ⟨"b", false⟩],
        [.job ⟨"a", false⟩, .job ⟨"b", false⟩]⟩ : SchedState).registered := by
  have h1 : SchedReach ⟨[], [], []⟩ := SchedReach.init
  have h2 := SchedReach.register (s := ⟨[], [], []⟩) (.job ⟨"a", false⟩) h1
  have h3 := SchedReach.register
    (s := ⟨[.job ⟨"a", false⟩], [], [.job ⟨"a", false⟩]⟩)
    (.job ⟨"b", false⟩) h2
  have h4 := SchedReach.pop
    (s := ⟨[.job ⟨"a", false⟩, .job ⟨"b", false⟩], [],
      [.job ⟨"a", false⟩, .job ⟨"b", false⟩]⟩)
    h3 rfl
  have h5 := SchedReach.pop
    (s := ⟨[.job ⟨"b", false⟩], [.job ⟨"a", false⟩],
      [.job ⟨"a", false⟩, .job ⟨"b", false⟩]⟩)
    h4 rfl
  exact (fifo_execution _ h5).2.1 rfl

/-! ## C5: failure isolation and final report -/

theorem processEntry_log (s : DrainState) (e : Entry) :
    (processEntry s e).log = s.log ++ entryLog e := by
  cases e with
  | group l => rfl
  | groupEnd => rfl
  | job j =>
    by_cases h : j.fails <;> simp [processEntry, entryLog, h]

theorem processEntry_executed (s : DrainState) (e : Entry) :
    (processEntry s e).executed =
      s.executed ++ (match e with | .job j => [j.name] | _ => []) := by
  cases e with
  | group l => simp [processEntry]
  | groupEnd => simp [processEntry]
  | job j => by_cases h : j.fails <;> simp [processEntry, h]

theorem processEntry_benchmarks (s : DrainState) (e : Entry) :
    (processEntry s e).countBenchmarks =
      s.countBenchmarks + (match e with | .job _ => 1 | _ => 0) := by
  cases e with
  | group l => simp [processEntry]
  | groupEnd => simp [processEntry]
  | job j => by_cases h : j.fails <;> simp [processEntry, h]

theorem processEntry_failed (s : DrainState) (e : Entry) :
    (processEntry s e).countFailed =
      s.countFailed +
        (match e with | .job j => if j.fails then 1 else 0 | _ => 0) := by
  cases e with
  | group l => simp [processEntry]
  | groupEnd => simp [processEntry]
  | job j => by_cases h : j.fails <;> simp [processEntry, h]

theorem drainQueue_executed (s : DrainState) (q : List Entry) :
    (drainQueue s q).executed = s.executed ++ jobNames q := by
  induction q generalizing s with
  | nil => simp [drainQueue, jobNames]
  | cons e rest ih =>
    rw [drainQueue, List.foldl_cons, ← drainQueue, ih, processEntry_executed]
    cases e <;> simp [jobNames]

theorem drainQueue_failed (s : DrainState) (q : List Entry) :
    (drainQueue s q).countFailed = s.countFailed + numFailingJobs q := by
  induction q generalizing s with
  | nil => simp [drainQueue, numFailingJobs]
  | cons e rest ih =>
    rw [drainQueue, List.foldl_cons, ← drainQueue, ih, processEntry_failed]
    cases e with
    | group l => simp [numFailingJobs]
    | groupEnd => simp [numFailingJobs]
    | job j =>
      by_cases h : j.fails <;>
        simp [numFailingJobs, List.filter_cons, h, Nat.add_assoc, Nat.add_comm]

theorem drainQueue_benchmarks (s : DrainState) (q : List Entry) :
    (drainQueue s q).countBenchmarks = s.countBenchmarks + numJobs q := by
  induction q generalizing s with
  | nil => simp [drainQueue, numJobs]
  | cons e rest ih =>
    rw [drainQueue, List.foldl_cons, ← drainQueue, ih, processEntry_benchmarks]
    cases e with
    | group l => simp [numJobs]
    | groupEnd => simp [numJobs]
    | job j => simp [numJobs, List.filter_cons, Nat.add_assoc, Nat.add_comm]

theorem drainQueue_log (s : DrainState) (q : List Entry) :
    (drainQueue s q).log = s.log ++ q.flatMap entryLog := by
  induction q generalizing s with
  | nil => simp [drainQueue]
  | cons e rest ih =>
    rw [drainQueue, List.foldl_cons, ← drainQueue, ih, processEntry_log]
    simp

/-- C5: a job whose callback always throws increments the failure counter
by exactly 1, has its error logged, and does not prevent any subsequently
queued job from executing; once discovery has completed and the queue has
drained, the totals are printed and the process exit status is 1 when the
failure counter is positive (as here) and 0 otherwise. -/
theorem failure_isolation (countFiles : ℕ) (s0 : DrainState)
    (q1 q2 : List Entry) (jf : Job) (hf : jf.fails = true) :
    (drainQueue s0 (q1 ++ [.job jf])).countFailed =
      (drainQueue s0 q1).countFailed + 1 ∧
    OutLine.errorLog jf.name ∈
      (drainQueue s0 (q1 ++ [.job jf] ++ q2)).log ∧
    (drainQueue s0 (q1 ++ [.job jf] ++ q2)).executed =
      s0.executed ++ jobNames q1 ++ [jf.name] ++ jobNames q2 ∧
    (runBenchmarksModel countFiles true s0 (q1 ++ [.job jf] ++ q2)).2 =
      some (exitCode (drainQueue s0 (q1 ++ [.job jf] ++ q2)).countFailed) ∧
    exitCode (drainQueue s0 (q1 ++ [.job jf] ++ q2)).countFailed = 1 ∧
    (∀ n : ℕ, n = 0 → exitCode n = 0) ∧
    (runBenchmarksModel countFiles true s0 (q1 ++ [.job jf] ++ q2)).1.log =
      (drainQueue s0 (q1 ++ [.job jf] ++ q2)).log ++
        [.filesLine countFiles,
          .benchmarksLine
            (drainQueue s0 (q1 ++ [.job jf] ++ q2)).countBenchmarks,
          .failedLine (drainQueue s0 (q1 ++ [.job jf] ++ q2)).countFailed] := by
  refine ⟨?_, ?_, ?_, ?_, ?_, ?_, ?_⟩
  · rw [drainQueue_failed, drainQueue_failed]
    simp [numFailingJobs, List.filter_append, List.filter_cons, hf]
    omega
  · rw [drainQueue_log]
    have : OutLine.errorLog jf.name ∈ entryLog (.job jf) := by
      simp [entryLog, hf]
    simp only [List.mem_append, List.mem_flatMap]
    exact Or.inr ⟨.job jf, by simp, this⟩
  · rw [drainQueue_executed]
    simp [jobNames, List.filterMap_append]
  · simp [runBenchmarksModel]
  · have hpos : 0 < (drainQueue s0 (q1 ++ [.job jf] ++ q2)).countFailed := by
      rw [drainQueue_failed]
      have h2 : 0 < numFailingJobs (q1 ++ [.job jf] ++ q2) := by
        simp [numFailingJobs, List.filter_append, List.filter_cons, hf]
      omega
    unfold exitCode
    rw [if_pos hpos]
  · intro n hn
    simp [exitCode, hn]
  · simp [runBenchmarksModel]

theorem failure_isolation_witness :
    (drainQueue ⟨0, 0, [], []⟩
        [.job ⟨"bad", true⟩, .job ⟨"ok", false⟩]).executed = ["bad", "ok"] ∧
    (runBenchmarksModel 1 true ⟨0, 0, [], []⟩
        [.job ⟨"bad", true⟩, .job ⟨"ok", false⟩]).2 = some 1 := by
  have h := failure_isolation 1 ⟨0, 0, [], []⟩ [] [.job ⟨"ok", false⟩]
    ⟨"bad", true⟩ rfl
  refine ⟨?_, ?_⟩
  · simpa [jobNames] using h.2.2.1
  · have h4 := h.2.2.2.1
    have h5 := h.2.2.2.2.1
    simp only [List.nil_append, List.singleton_append] at h4 h5
    rw [h4, h5]

/-! ## C10: counter ordering and the `failed ≤ benchmarks` invariant -/

theorem counterTrace_le (q : List Entry) (s : ℕ × ℕ) (hs : s.2 ≤ s.1) :
    ∀ p ∈ counterTrace s q, p.2 ≤ p.1 := by
  induction q generalizing s with
  | nil =>
    intro p hp
    cases hp
  | cons e rest ih =>
    intro p hp
    rw [counterTrace] at hp
    rcases List.mem_append.1 hp with h | h
    · cases e with
      | group l => cases h
      | groupEnd => cases h
      | job j =>
        by_cases hf : j.fails
        · simp only [entryCounterStates, if_pos hf, List.mem_cons,
            List.mem_singleton] at h
          rcases h with rfl | (rfl | h)
          · exact Nat.le_succ_of_le hs
          · exact Nat.add_le_add_right hs 1
          · cases h
        · simp only [entryCounterStates, if_neg hf, List.mem_singleton] at h
          subst h
          exact Nat.le_succ_of_le hs
    · refine ih _ ?_ _ h
      cases e with
      | group l => exact hs
      | groupEnd => exact hs
      | job j =>
        by_cases hf : j.fails <;> simp [stepCounters, hf] <;> omega

theorem foldl_stepCounters (q : List Entry) (s : DrainState) :
    q.foldl stepCounters (s.countBenchmarks, s.countFailed) =
      ((drainQueue s q).countBenchmarks, (drainQueue s q).countFailed) := by
  induction q generalizing s with
  | nil => rfl
  | cons e rest ih =>
    rw [List.foldl_cons, drainQueue, List.foldl_cons, ← drainQueue]
    have h : stepCounters (s.countBenchmarks, s.countFailed) e =
        ((processEntry s e).countBenchmarks, (processEntry s e).countFailed) := by
      cases e with
      | group l => rfl
      | groupEnd => rfl
      | job j => by_cases hf : j.fails <;> simp [stepCounters, processEntry, hf]
    rw [h, ih]

theorem numFailingJobs_le_numJobs (q : List Entry) :
    numFailingJobs q ≤ numJobs q := by
  induction q with
  | nil => exact Nat.le_refl 0
  | cons e rest ih =>
    cases e with
    | group l => simpa [numFailingJobs, numJobs, List.filter_cons] using ih
    | groupEnd => simpa [numFailingJobs, numJobs, List.filter_cons] using ih
    | job j =>
      by_cases hf : j.fails <;>
        (simp [numFailingJobs, numJobs, List.filter_cons, hf] at ih ⊢) <;> omega

/-- C10: the benchmarks counter is incremented as soon as a job's run
procedure begins (the first statement of `runSimpleBenchmark` /
`runComplexBenchmark`), before any of its cases run and before any failure
can be recorded for it, so a failing job is counted in both the
benchmarks total and the failed total; consequently every intermediate
counter state observed during a drain satisfies
`countFailed ≤ countBenchmarks`. -/
theorem counters_monotone (q : List Entry) :
    (∀ p ∈ counterTrace (0, 0) q, p.2 ≤ p.1) ∧
    q.foldl stepCounters (0, 0) =
      ((drainQueue ⟨0, 0, [], []⟩ q).countBenchmarks,
        (drainQueue ⟨0, 0, [], []⟩ q).countFailed) ∧
    (drainQueue ⟨0, 0, [], []⟩ q).countBenchmarks = numJobs q ∧
    (drainQueue ⟨0, 0, [], []⟩ q).countFailed = numFailingJobs q ∧
    numFailingJobs q ≤ numJobs q := by
  refine ⟨counterTrace_le q (0, 0) (Nat.le_refl 0), ?_, ?_, ?_,
    numFailingJobs_le_numJobs q⟩
  · exact foldl_stepCounters q ⟨0, 0, [], []⟩
  · simpa using drainQueue_benchmarks ⟨0, 0, [], []⟩ q
  · simpa using drainQueue_failed ⟨0, 0, [], []⟩ q

theorem counters_monotone_witness :
    ((1, 1) : ℕ × ℕ).2 ≤ ((1, 1) : ℕ × ℕ).1 ∧
    (drainQueue ⟨0, 0, [], []⟩ [.job ⟨"bad", true⟩]).countFailed = 1 := by
  refine ⟨(counters_monotone [.job ⟨"bad", true⟩]).1 (1, 1) (by decide), ?_⟩
  have h := (counters_monotone [.job ⟨"bad", true⟩]).2.2.2.1
  simpa [numFailingJobs] using h

/-! ## C6: no interleaving of job executions (violated by `finish`) -/

/-- C6 exhibit: the claim — and the spec — say no two jobs' executions
ever interleave, including when the discovery-complete signal arrives
while a drain is in progress.  But `finish` (line 296) calls
`this.runBenchmarks()` without checking `this.running`, so the following
schedule is reachable: register two jobs (arming one drain loop), let that
loop pop job "a" and suspend inside its measurement, receive `finish`
(starting a second loop), and let the second loop pop job "b" — reaching
a state in which two drain loops are simultaneously inside a job. -/
theorem finish_mid_drain_interleaving :
    CReach interleavedState ∧
    (interleavedState.loops.filter LoopPhase.isInJob).length = 2 := by
  constructor
  · have h1 : CReach ⟨[], [], false, false⟩ := CReach.init
    have h2 : CReach ⟨[.job ⟨"a", false⟩], [.popping], true, false⟩ :=
      CReach.registerIdle (s := ⟨[], [], false, false⟩) ⟨"a", false⟩ h1 rfl
    have h3 : CReach
        ⟨[.job ⟨"a", false⟩, .job ⟨"b", false⟩], [.popping], true, false⟩ :=
      CReach.registerBusy (s := ⟨[.job ⟨"a", false⟩], [.popping], true, false⟩)
        ⟨"b", false⟩ h2 rfl
    have h4 : CReach ⟨[.job ⟨"b", false⟩], [.inJob ⟨"a", false⟩], true, false⟩ :=
      CReach.popJob
        (s := ⟨[.job ⟨"a", false⟩, .job ⟨"b", false⟩], [.popping], true, false⟩)
        0 h3 rfl rfl
    have h5 : CReach
        ⟨[.job ⟨"b", false⟩], [.inJob ⟨"a", false⟩, .popping], true, true⟩ :=
      CReach.finish h4
    exact CReach.popJob
      (s := ⟨[.job ⟨"b", false⟩], [.inJob ⟨"a", false⟩, .popping], true, true⟩)
      1 h5 rfl rfl
  · rfl

/-! ## C8: empty case set / empty parameter set -/

/-- C8 counterexample: the claim says an empty case set (simple benchmark)
surfaces as a CaseExecutionError and the job is counted as failed.  In
the code, `Object.entries({})` yields an empty case list and the per-case
loop simply runs zero times: the job completes normally, so its queue
entry does not increment the failure counter. -/
theorem empty_cases_counterexample :
    runSimpleBenchmark ℕ true 1000 [] = ([], false) ∧
    (processEntry ⟨0, 0, [], []⟩
      (.job ⟨"empty", (runSimpleBenchmark ℕ true 1000 []).2⟩)).countFailed = 0 := by
  exact ⟨rfl, rfl⟩

/-- C8 amended: a complex benchmark with an empty parameter set fails
during expansion setup (reading `parameterOptions.at(-1).at(-1).value` at
line 179 throws a TypeError), the job is counted as failed, and the run
continues with the next queued job; a simple benchmark with an empty case
set is *not* an error — its loop runs zero times, it prints no result
rows, and it is not counted as failed. -/
theorem empty_description_behaviour :
    (∀ (α : Type) (hasPost : Bool) (T : ℚ),
      runSimpleBenchmark α hasPost T [] = ([], false)) ∧
    (∀ (K L V : Type) (iK : DecidableEq K) (iV : DecidableEq V) (T : ℚ)
      (w : List (K × V) → Except String ℚ)
      (m : List (K × V) → Except String AmrapResult),
      (runComplexBenchmark (K := K) (L := L) (V := V) T [] w m).err = true) ∧
    (∀ (s : DrainState) (jf : Job) (q2 : List Entry), jf.fails = true →
      (drainQueue s (.job jf :: q2)).countFailed =
        s.countFailed + 1 + numFailingJobs q2 ∧
      (drainQueue s (.job jf :: q2)).executed =
        s.executed ++ jf.name :: jobNames q2) := by
  refine ⟨fun α hasPost T => rfl, fun K L V iK iV T w m => rfl, ?_⟩
  intro s jf q2 hf
  constructor
  · rw [drainQueue, List.foldl_cons, ← drainQueue, drainQueue_failed,
      processEntry_failed]
    simp [hf, Nat.add_assoc]
  · rw [drainQueue, List.foldl_cons, ← drainQueue, drainQueue_executed,
      processEntry_executed]
    simp

theorem empty_description_behaviour_witness :
    (runComplexBenchmark (K := String) (L := String) (V := ℕ) 1000 []
      gridWarmup gridMeasure).err = true ∧
    (drainQueue ⟨0, 0, [], []⟩ [.job ⟨"emptyComplex", true⟩]).countFailed = 1 ∧
    runSimpleBenchmark ℕ true 1000 [] = ([], false) := by
  refine ⟨empty_description_behaviour.2.1 String String ℕ inferInstance
      inferInstance 1000 gridWarmup gridMeasure, ?_,
    empty_description_behaviour.1 ℕ true 1000⟩
  have h3 := (empty_description_behaviour.2.2 ⟨0, 0, [], []⟩
    ⟨"emptyComplex", true⟩ [] rfl).1
  simpa [numFailingJobs] using h3

/-! ## C9: header row and inner-sweep separators -/

theorem runComplexCases_ok {K L V : Type} [DecidableEq K] [DecidableEq V]
    (T : ℚ) (np : ℕ) (lk : Option K) (lv : V) (wt : List (K × V) → ℚ)
    (mr : List (K × V) → AmrapResult) (cs : List (CaseInstance K L V)) :
    runComplexCases T np lk lv (fun d => .ok (wt d)) (fun d => .ok (mr d)) cs =
      (cs.flatMap (sweepLinesSpec T np lk lv wt mr), false) := by
  induction cs with
  | nil => rfl
  | cons c rest ih =>
    rw [runComplexCases, ih]
    by_cases h1 : wt c.data > T
    · simp [sweepLinesSpec, h1]
    · by_cases h2 : wt c.data * 2 > T
      · simp [sweepLinesSpec, h1, h2]
      · by_cases h3 : np > 1 ∧ jsIndex c.data lk = some lv
        · simp [sweepLinesSpec, h1, h2, h3]
        · simp [sweepLinesSpec, h1, h2, h3]

theorem sweepLinesSpec_no_header {K L V : Type} [DecidableEq K] [DecidableEq V]
    (T : ℚ) (np : ℕ) (lk : Option K) (lv : V) (wt : List (K × V) → ℚ)
    (mr : List (K × V) → AmrapResult) (c : CaseInstance K L V) :
    ∀ l ∈ sweepLinesSpec T np lk lv wt mr c, isHeaderLine l = false := by
  intro l hl
  unfold sweepLinesSpec at hl
  by_cases h1 : wt c.data > T
  · simp only [if_pos h1, List.mem_singleton] at hl
    subst hl
    rfl
  · by_cases h2 : wt c.data * 2 > T
    · simp only [if_neg h1, if_pos h2, List.mem_singleton] at hl
      subst hl
      rfl
    · simp only [if_neg h1, if_neg h2, List.mem_cons] at hl
      rcases hl with rfl | hl
      · rfl
      · by_cases h3 : np > 1 ∧ jsIndex c.data lk = some lv
        · simp only [if_pos h3, List.mem_singleton] at hl
          subst hl
          rfl
        · simp only [if_neg h3] at hl
          cases hl

/-- C9 counterexample: run the translated complex sweep on a two-by-two
grid (`gridTwoByTwo`, budget 1000) where every combination is measured
except the last, which is marginal.  The claim says a header row of the
dimensions' display names is printed exactly once before the sweep, and a
blank separator follows each completed inner-most sweep.  The actual
output contains no header line at all (the collected display names are
never printed), and the second inner sweep ends without a separator
because its last combination is classified marginal and the `continue`
at line 201 skips the separator check. -/
theorem sweep_output_counterexample :
    (runComplexBenchmark 1000 gridTwoByTwo gridWarmup gridMeasure).output =
      [.row [("n", "n1"), ("m", "m1")] 5,
       .row [("n", "n1"), ("m", "m2")] 5,
       .blank,
       .row [("n", "n2"), ("m", "m1")] 5,
       .row [("n", "n2"), ("m", "m2")] 1] ∧
    ((runComplexBenchmark 1000 gridTwoByTwo gridWarmup gridMeasure).output.filter
      isHeaderLine).length = 0 ∧
    (runComplexBenchmark 1000 gridTwoByTwo gridWarmup
        gridMeasure).output.getLast? =
      some (.row [("n", "n2"), ("m", "m2")] 1) := by
  have hcases : buildCases ["n", "m"]
      [[⟨"n1", 1, none⟩, ⟨"n2", 2, none⟩], [⟨"m1", 10, none⟩, ⟨"m2", 20, none⟩]] =
      ([⟨[("n", "n1"), ("m", "m1")], [("n", 1), ("m", 10)]⟩,
        ⟨[("n", "n1"), ("m", "m2")], [("n", 1), ("m", 20)]⟩,
        ⟨[("n", "n2"), ("m", "m1")], [("n", 2), ("m", 10)]⟩,
        ⟨[("n", "n2"), ("m", "m2")], [("n", 2), ("m", 20)]⟩] :
        List (CaseInstance String String ℕ)) := by
    decide
  have hout : runComplexBenchmark 1000 gridTwoByTwo gridWarmup gridMeasure =
      ⟨[.row [("n", "n1"), ("m", "m1")] 5,
        .row [("n", "n1"), ("m", "m2")] 5,
        .blank,
        .row [("n", "n2"), ("m", "m1")] 5,
        .row [("n", "n2"), ("m", "m2")] 1], false⟩ := by
    have hw : gridWarmup = fun d => Except.ok (gridWarmupTime d) := rfl
    have hm : gridMeasure = fun d => Except.ok (gridMeasureRes d) := rfl
    norm_num +decide [runComplexBenchmark, gridTwoByTwo, hw, hm,
      hcases, runComplexCases_ok, sweepLinesSpec, gridWarmupTime,
      gridMeasureRes, jsIndex, throughputOf, List.flatMap_cons,
      List.flatMap_nil]
  rw [hout]
  exact ⟨rfl, rfl, rfl⟩

/-- C9 amended: no header row of dimension display names is ever printed —
the display names are collected into the `labels` map (line 148) but never
logged.  A blank separator line follows exactly those *measured*
combinations for which more than one dimension is declared and the
combination's value for the last dimension equals that dimension's last
option's value (the per-case lines are `sweepLinesSpec`); a combination
classified skipped or marginal prints only its sentinel row and is never
followed by a separator, even when it ends an inner-most sweep. -/
theorem sweep_separators {K L V : Type} [iK : DecidableEq K]
    [iV : DecidableEq V] (T : ℚ)
    (params : List (K × List (ParamOption K L V)))
    (wt : List (K × V) → ℚ) (mr : List (K × V) → AmrapResult)
    (lastOpts : List (ParamOption K L V)) (lastOpt : ParamOption K L V)
    (h1 : (params.map (fun p => p.2)).getLast? = some lastOpts)
    (h2 : lastOpts.getLast? = some lastOpt) :
    (runComplexBenchmark T params (fun d => .ok (wt d))
        (fun d => .ok (mr d))).err = false ∧
    (¬ T * ((buildCases (params.map (fun p => p.1))
          (params.map (fun p => p.2))).length : ℚ) > 10000 →
      (runComplexBenchmark T params (fun d => .ok (wt d))
          (fun d => .ok (mr d))).output =
        (buildCases (params.map (fun p => p.1))
            (params.map (fun p => p.2))).flatMap
          (sweepLinesSpec T params.length
            (params.map (fun p => p.1)).getLast? lastOpt.value wt mr)) ∧
    (∀ l ∈ (runComplexBenchmark T params (fun d => .ok (wt d))
        (fun d => .ok (mr d))).output, isHeaderLine l = false) := by
  refine ⟨?_, ?_, ?_⟩
  · simp only [runComplexBenchmark, h1, h2, runComplexCases_ok]
  · intro hEst
    simp only [runComplexBenchmark, h1, h2, runComplexCases_ok, if_neg hEst,
      List.nil_append]
  · intro l hl
    simp only [runComplexBenchmark, h1, h2, runComplexCases_ok] at hl
    rcases List.mem_append.1 hl with h | h
    · by_cases hEst : T * ((buildCases (params.map (fun p => p.1))
          (params.map (fun p => p.2))).length : ℚ) > 10000
      · rw [if_pos hEst] at h
        simp only [List.mem_singleton] at h
        subst h
        rfl
      · rw [if_neg hEst] at h
        cases h
    · obtain ⟨c, hc, hlc⟩ := List.mem_flatMap.1 h
      exact sweepLinesSpec_no_header T params.length
        (params.map (fun p => p.1)).getLast? lastOpt.value wt mr c l hlc

theorem sweep_separators_witness :
    (runComplexBenchmark 1000 gridTwoByTwo gridWarmup gridMeasure).err =
      false := by
  exact (sweep_separators 1000 gridTwoByTwo gridWarmupTime gridMeasureRes
    [⟨"m1", 10, none⟩, ⟨"m2", 20, none⟩] ⟨"m2", 20, none⟩ rfl rfl).1

end Benchmarking
